import Mathlib

/-
Verification of the regclient HTTP transport, sync tag filter, and OCI-dir
scheme against their natural-language specification.

The definitions below are a shallow embedding of the Go source:
  internal/reghttp/http.go   (Client, clientResp.Next, clientResp.Read,
                              backoffSet, backoffClear, sortHostsCmp, HTTPError)
  cmd/regsync/root.go        (ConfigSync.filterTags)
  ocidir package             (OCIDir.ManifestDelete, OCIDir.ManifestPut)

Durations and instants are modelled as natural numbers of abstract time
units (a Go time.Duration is a non-negative count of nanoseconds in every
code path modelled here; the zero time.Time value is modelled as 0).
Counters typed int in Go are modelled as Int so that statements about
non-negativity are meaningful.  IO effects (logging, TLS setup, the actual
network send, sleeping) have no observable value-level effect and are
dropped; everything the surrounding code branches on is made an explicit
input.
-/

namespace Regclient

/-! ## Backoff state (internal/reghttp/http.go, clientHost / Client fields) -/

/-- Client retry configuration: Client.delayInit, Client.delayMax
(time.Duration, modelled as Nat) and Client.retryLimit (int, modelled as
Int). -/
structure BackoffCfg where
  delayInit : Nat
  delayMax : Nat
  retryLimit : Int
deriving Repr, DecidableEq

/-- Per-host mutable backoff state: clientHost.backoffCur (int) and
clientHost.backoffUntil (time.Time, zero value modelled as 0). -/
structure BackoffState where
  backoffCur : Int
  backoffUntil : Nat
deriving Repr, DecidableEq

/-- Embedding of (resp *clientResp) backoffSet (http.go lines 597-627).
The Retry-After header, when present and parsed by time.ParseDuration, is
the argument retryAfter (none when the header is absent; a header that
fails to parse yields duration 0, i.e. some 0, which behaves identically
to none).  Returns the updated host state and whether the backoff-limit
error was returned.  The Go shift delayInit << backoffCur is a left shift
of a non-negative int64; it is modelled as a Nat shift, with the exponent
backoffCur (always non-negative, see claim C10) converted by toNat. -/
def backoffSet (c : BackoffCfg) (retryAfter : Option Nat) (now : Nat)
    (ch : BackoffState) : BackoffState × Bool :=
  let cur : Int := ch.backoffCur + 1
  -- sleep for backoff time
  let sleepTime : Nat := c.delayInit <<< cur.toNat
  -- limit to max delay
  let sleepTime : Nat := if sleepTime > c.delayMax then c.delayMax else sleepTime
  -- check rate limit header
  let sleepTime : Nat :=
    match retryAfter with
    | none => sleepTime
    | some ra =>
      if ra > c.delayMax then c.delayMax
      else if ra > sleepTime then ra
      else sleepTime
  ({ backoffCur := cur, backoffUntil := now + sleepTime },
   decide (cur ≥ c.retryLimit))

/-- Embedding of (resp *clientResp) backoffClear (http.go lines 581-595):
clamp backoffCur to retryLimit, decrement when positive, and zero
backoffUntil when the counter reaches zero. -/
def backoffClear (c : BackoffCfg) (ch : BackoffState) : BackoffState :=
  let cur : Int := if ch.backoffCur > c.retryLimit then c.retryLimit else ch.backoffCur
  if cur > 0 then
    let cur' := cur - 1
    { backoffCur := cur',
      backoffUntil := if cur' = 0 then 0 else ch.backoffUntil }
  else
    { ch with backoffCur := cur }

/-! ## Mirror selection (internal/reghttp/http.go, clientResp.Next and
sortHostsCmp) -/

/-- Host data consulted by the mirror sort: clientHost.backoffUntil and the
config fields Name and Priority (config.Host).  Priority is a uint in Go,
modelled as Nat. -/
structure ClientHost where
  name : String
  priority : Nat
  backoffUntil : Nat
deriving Repr, DecidableEq

/-- Embedding of sortHostsCmp (http.go lines 714-727), the less function
handed to sort.Slice.  now.Before(t) is now < t on the Nat time line. -/
def sortHostsCmp (now : Nat) (upstream : String) (hi hj : ClientHost) : Bool :=
  if now < hi.backoffUntil ∨ now < hj.backoffUntil then
    hi.backoffUntil < hj.backoffUntil
  else if hi.priority ≠ hj.priority then
    hi.priority < hj.priority
  else
    hi.name ≠ upstream

/-- Candidate host list built by clientResp.Next (http.go lines 240-247)
before sorting: the mirrors of the requested host (skipped when NoMirrors
is set), then the requested host itself.  getHost is abstracted as the
lookup function. -/
def nextCandidates (noMirrors : Bool) (mirrors : List String)
    (lookup : String → ClientHost) (reqHost : String) : List ClientHost :=
  (if noMirrors then [] else mirrors.map lookup) ++ [lookup reqHost]

/-- Boolean check that a list is sorted with respect to sortHostsCmp: no
element is strictly less than any element placed before it.  This is the
guarantee Go sort.Slice gives for its output whenever the less function is
a strict weak order. -/
def goSortedHosts (now : Nat) (upstream : String) : List ClientHost → Bool
  | [] => true
  | a :: l => (l.all fun b => !sortHostsCmp now upstream b a) && goSortedHosts now upstream l

/-- Stable insertion of a into an already sorted list: a is placed before
the first element not strictly below it. -/
def stableInsert (lt : ClientHost → ClientHost → Bool) (a : ClientHost) :
    List ClientHost → List ClientHost
  | [] => [a]
  | b :: l => if lt b a then b :: stableInsert lt a l else a :: b :: l

/-- Stable sort by a strict comparator: equal elements keep their input
order. -/
def stableSortBy (lt : ClientHost → ClientHost → Bool) :
    List ClientHost → List ClientHost
  | [] => []
  | a :: l => stableInsert lt a (stableSortBy lt l)

/-- Modelled from the spec: the ordering that claim C2 describes.  When any
candidate in the list has backoffUntil in the future the whole list is
ordered stably by backoffUntil ascending; otherwise stably by priority
ascending, with the upstream (named) host placed after mirrors on priority
ties. -/
def specSortHosts (now : Nat) (upstream : String) (hosts : List ClientHost) :
    List ClientHost :=
  if hosts.any fun h => now < h.backoffUntil then
    stableSortBy (fun a b => a.backoffUntil < b.backoffUntil) hosts
  else
    stableSortBy
      (fun a b => a.priority < b.priority ∨
        (a.priority = b.priority ∧ a.name ≠ upstream ∧ b.name = upstream))
      hosts

/-- Propositional reading of the pairwise order that sortHostsCmp enforces
between an element x and any element y placed after it: when either of the
two has backoffUntil in the future, x.backoffUntil ≤ y.backoffUntil;
otherwise x.priority ≤ y.priority, and on a priority tie y is the upstream
host whenever x and y are ordered at all (i.e. x is never strictly greater). -/
def hostPairOrdered (now : Nat) (upstream : String) (x y : ClientHost) : Prop :=
  if now < x.backoffUntil ∨ now < y.backoffUntil then
    x.backoffUntil ≤ y.backoffUntil
  else if x.priority ≠ y.priority then
    x.priority ≤ y.priority
  else
    y.name = upstream

/-! ## Tag filtering (cmd/regsync/root.go, ConfigSync.filterTags)

Go regular expressions are abstracted by an oracle rmatch, where
rmatch pat s models regexp.MustCompile(pat).MatchString(s); the filter
always hands rmatch the anchored pattern string "^" ++ pat ++ "$" exactly
as the code compiles it.  A pattern that fails to compile aborts
filterTags with an error; the claims quantify over pattern lists that the
code accepts, so compile failures are outside their scope and rmatch is
total here. -/

/-- Embedding of one allow-list pass (root.go lines 780-792, inner loop for
one compiled pattern): position i of the result is set to in[i] when it is
still empty and the anchored pattern matches in[i]. -/
def allowScan (rmatch : String → String → Bool) (pat : String)
    (inp res : List String) : List String :=
  List.zipWith
    (fun t r => if r = "" ∧ rmatch ("^" ++ pat ++ "$") t then t else r)
    inp res

/-- Embedding of one deny-list pass (root.go lines 797-809, inner loop for
one compiled pattern): a non-empty surviving entry matching the anchored
pattern is blanked. -/
def denyScan (rmatch : String → String → Bool) (pat : String)
    (res : List String) : List String :=
  res.map fun r => if r ≠ "" ∧ rmatch ("^" ++ pat ++ "$") r then "" else r

/-- Embedding of ConfigSync.filterTags (root.go lines 776-821): allow
passes fill a blank result array (everything allowed when the allow list
is empty), deny passes blank matching entries, and the compression loop
drops the blanks. -/
def filterTags (rmatch : String → String → Bool) (allow deny : List String)
    (inp : List String) : List String :=
  let result :=
    if allow.length > 0 then
      allow.foldl (fun res pat => allowScan rmatch pat inp res)
        (inp.map fun _ => "")
    else
      inp
  let result := deny.foldl (fun res pat => denyScan rmatch pat res) result
  result.filter fun r => r ≠ ""

/-- Characterization of which tags survive filterTags: the tag is
non-empty, the allow list is empty or some anchored allow pattern matches,
and no anchored deny pattern matches. -/
def keepTag (rmatch : String → String → Bool) (allow deny : List String)
    (t : String) : Bool :=
  (t ≠ "" : Bool) &&
    (allow.isEmpty || allow.any fun p => rmatch ("^" ++ p ++ "$") t) &&
    (deny.all fun p => !rmatch ("^" ++ p ++ "$") t)

/-! ## Response reader state (internal/reghttp/http.go, clientResp) -/

/-- Observable clientResp state threaded through Next and Read: done,
whether resp is non-nil, the request method, the expected digest
(resp.digest, empty string when unset), the bytes fed to the incremental
digester so far (resp.digester, created once per Do call), and the
readCur/readMax counters (int64, modelled as Int). -/
structure RespState where
  done : Bool
  hasResp : Bool
  method : String
  expected : String
  digester : List Nat
  readCur : Int
  readMax : Int
deriving Repr, DecidableEq

/-- Error outcomes of the closure in clientResp.Next (http.go lines
279-491) and of HTTPError (lines 660-674).  requestFailed wraps the error
HTTPError produces for a non-2xx status. -/
inductive ErrKind where
  | unauthorized
  | notFound
  | rateLimit
  | httpStatus (code : Nat)
deriving Repr, DecidableEq

/-- Embedding of HTTPError (http.go lines 660-674). -/
def HTTPError (statusCode : Nat) : ErrKind :=
  match statusCode with
  | 401 => .unauthorized
  | 403 => .unauthorized
  | 404 => .notFound
  | 429 => .rateLimit
  | _ => .httpStatus statusCode

/-- Errors surfaced by clientResp.Next and clientResp.Read. -/
inductive RErr where
  | apiNotFound
  | headDisabled
  | canceled
  | newReqFailed
  | resumeConflict
  | authUpdateFailed
  | authHandleFailed
  | authRequired
  | transportFailed
  | requestFailed (k : ErrKind)
  | rangeUnsupported
  | allRequestsFailed
deriving Repr, DecidableEq

/-- Environment of one attempt against one host: every value the closure
in clientResp.Next branches on that comes from the outside world (API
lookup, context, auth engine, the HTTP round trip and its response
headers). -/
structure AttemptEnv where
  okAPI : Bool
  disableHead : Bool
  ctxDoneDuringSleep : Bool
  newReqErr : Bool
  hasAuth : Bool
  authUpdateErr : Bool
  transportErr : Bool
  status : Nat
  authHandleOK : Bool
  contentLength : Option Int
  contentRange : Bool
  retryAfter : Option Nat
  now : Nat
deriving Repr, DecidableEq

/-- Request fields consulted by one attempt: the method, the Range header
the caller put in api.Headers (none when absent), and api.IgnoreErr. -/
structure ApiReq where
  method : String
  rangeHeader : Option String
  ignoreErr : Bool
deriving Repr, DecidableEq

/-- Result of one attempt: the closure error, the backoff / dropHost /
retryHost flags it sets, the value of the Range header actually sent on
the wire, and the updated response state. -/
structure StepOut where
  err : Option RErr
  backoff : Bool := false
  dropHost : Bool := false
  retryHost : Bool := false
  sentRange : Option String := none
  st : RespState
deriving Repr, DecidableEq

/-- Embedding of the per-host closure in clientResp.Next (http.go lines
279-491).  URL construction, TLS configuration and logging have no
observable effect at this level and are dropped; sleeping for backoff is
observable only through a context cancellation, which ctxDoneDuringSleep
injects.  On a 2xx response the body is teed into the existing digester
(st.digester is not reset), readMax is loaded from Content-Length when
both counters are zero, and a sent Range header without a Content-Range in
the response drops the host with an error. -/
def hostAttempt (env : AttemptEnv) (api : ApiReq) (st : RespState) : StepOut :=
  if ¬env.okAPI then
    { err := some .apiNotFound, dropHost := true, st := st }
  else if api.method = "HEAD" ∧ env.disableHead then
    { err := some .headDisabled, dropHost := true, st := st }
  else if env.ctxDoneDuringSleep then
    { err := some .canceled, st := st }
  else if env.newReqErr then
    { err := some .newReqFailed, dropHost := true, st := st }
  else
    let rangeSent : Except Unit (Option String) :=
      if st.readCur > 0 ∧ st.readMax > 0 then
        match api.rangeHeader with
        | none => .ok (some ("bytes=" ++ toString st.readCur ++ "-" ++ toString st.readMax))
        | some _ => .error ()
      else .ok api.rangeHeader
    match rangeSent with
    | .error _ => { err := some .resumeConflict, dropHost := true, st := st }
    | .ok sentRange =>
      if env.hasAuth ∧ env.authUpdateErr then
        { err := some .authUpdateFailed, backoff := true, sentRange := sentRange, st := st }
      else if env.transportErr then
        { err := some .transportFailed, backoff := true, sentRange := sentRange, st := st }
      else if env.status < 200 ∨ env.status ≥ 300 then
        if env.status = 401 then
          if env.authHandleOK then
            { err := some .authRequired, retryHost := true, sentRange := sentRange, st := st }
          else
            { err := some .authHandleFailed, backoff := true, dropHost := true,
              sentRange := sentRange, st := st }
        else if env.status = 404 then
          { err := some (.requestFailed (HTTPError 404)), dropHost := true,
            sentRange := sentRange, st := st }
        else if env.status = 429 ∨ env.status = 408 ∨ env.status = 504 then
          { err := some (.requestFailed (HTTPError env.status)), backoff := true,
            sentRange := sentRange, st := st }
        else
          { err := some (.requestFailed (HTTPError env.status)), backoff := true,
            dropHost := true, sentRange := sentRange, st := st }
      else
        let st :=
          if st.readCur = 0 ∧ st.readMax = 0 then
            match env.contentLength with
            | some cl => { st with readMax := cl }
            | none => st
          else st
        if sentRange ≠ none ∧ ¬env.contentRange then
          { err := some .rangeUnsupported, dropHost := true, sentRange := sentRange, st := st }
        else
          { err := none, sentRange := sentRange, st := st }

/-- Embedding of the retry loop of clientResp.Next (http.go lines
249-516), with the per-iteration outside world given by an oracle indexed
by the remaining fuel.  Host backoff states live in the table hstates.
Returns none when fuel runs out, some (.ok (st, hstates)) on success
(with backoffClear applied to the serving host) and some (.error e) when
the candidate list empties. -/
def nextLoop (cfg : BackoffCfg) (api : ApiReq) (oracle : Nat → AttemptEnv) :
    Nat → List String → Nat → Option RErr → RespState →
    (String → BackoffState) →
    Option (Except RErr (RespState × (String → BackoffState)))
  | 0, _, _, _, _, _ => none
  | fuel + 1, hosts, curHost, lastErr, st, hstates =>
    if hosts.isEmpty then
      match lastErr with
      | some e => some (.error e)
      | none => some (.error .allRequestsFailed)
    else
      let curHost := if curHost ≥ hosts.length then 0 else curHost
      let hname := hosts.getD curHost ""
      let env := oracle fuel
      let out := hostAttempt env api st
      match out.err with
      | none =>
        -- success: backoffClear on the mirror that answered, then return
        some (.ok (out.st,
          fun n => if n = hname then backoffClear cfg (hstates hname) else hstates n))
      | some e =>
        let dropFromBackoff :=
          if out.backoff then
            if api.ignoreErr then (hstates, true)
            else
              let (bs, boErr) := backoffSet cfg env.retryAfter env.now (hstates hname)
              ((fun n => if n = hname then bs else hstates n), boErr)
          else (hstates, false)
        let hstates' := dropFromBackoff.1
        let drop := out.dropHost || dropFromBackoff.2
        let hosts' := if drop then hosts.eraseIdx curHost else hosts
        let curHost' := if drop then curHost else if out.retryHost then curHost else curHost + 1
        nextLoop cfg api oracle fuel hosts' curHost' (some e) out.st hstates'

/-- Low-level error returned by the underlying reader (io.TeeReader over
the response body). -/
inductive LowErr where
  | eof
  | unexpectedEof
  | other
deriving Repr, DecidableEq

/-- Errors returned by clientResp.Read. -/
inductive RdErr where
  | eofRet
  | notFoundRet
  | low (e : LowErr)
  | digestMismatch (expected computed : String)
deriving Repr, DecidableEq

/-- Embedding of clientResp.Read (http.go lines 522-571), parameterized by
the digest function hash (digester.Digest() over the bytes fed so far).
chunk is the byte slice produced by the underlying read of this call and
lerr its error; nextErr says whether the resp.Next() call issued on a
short read fails.  Returns the new state, the error returned to the
caller, and whether resp.Next() was invoked (the retry). -/
def clientRespRead (hash : List Nat → String) (st : RespState)
    (chunk : List Nat) (lerr : Option LowErr) (nextErr : Bool) :
    RespState × Option RdErr × Bool :=
  if st.done then (st, some .eofRet, false)
  else if ¬st.hasResp then (st, some .notFoundRet, false)
  else
    let st := { st with
      readCur := st.readCur + chunk.length,
      digester := st.digester ++ chunk }
    match lerr with
    | none => (st, none, false)
    | some le =>
      if le = .eof ∨ le = .unexpectedEof then
        if st.method = "HEAD" ∨ st.readCur ≥ st.readMax then
          let st := { st with done := true }
          if st.method ≠ "HEAD" ∧ st.expected ≠ "" ∧ st.expected ≠ hash st.digester then
            (st, some (.digestMismatch st.expected (hash st.digester)), false)
          else
            (st, some (.low le), false)
        else
          -- short read: backoffSet on the serving host, then resp.Next()
          if nextErr then ({ st with done := true }, some (.low le), true)
          else (st, none, true)
      else
        (st, some (.low le), false)

/-! ## OCI-dir scheme (ocidir package: ManifestDelete, ManifestPut) -/

/-- Index entry (ociv1.Descriptor as used by the ocidir index): the digest
in its canonical string form, media type, size, and the value of the
org.opencontainers.image.ref.name entry of the Annotations map (none when
the map has no such key). -/
structure IdxDesc where
  mediaType : String
  size : Int
  digestStr : String
  refName : Option String
deriving Repr, DecidableEq

/-- One iteration of the removal loop in OCIDir.ManifestDelete, modelling
Go slice semantics exactly.  The loop

  for i, desc := range index.Manifests {
    if r.Digest != "" && desc.Digest.String() == r.Digest {
      index.Manifests = append(index.Manifests[:i], index.Manifests[i+1:]...)
    }
  }

ranges over the slice header saved at loop entry (length n fixed, backing
array shared with the shrinking index.Manifests), so desc reads the
mutated backing array.  The state is (backing, curLen): the full backing
array of length n and the current length of index.Manifests.  The slice
expression cur[i+1:] panics when i+1 exceeds curLen (modelled as none);
otherwise append copies backing[0:i] ++ backing[i+1:curLen] in place and
shortens the slice by one. -/
def delStep (dgst : String) (st : List IdxDesc × Nat) (i : Nat) :
    Option (List IdxDesc × Nat) :=
  let (backing, curLen) := st
  match backing[i]? with
  | none => none
  | some desc =>
    if dgst ≠ "" ∧ desc.digestStr = dgst then
      if i + 1 > curLen then none
      else
        let removed := backing.take i ++ (backing.drop (i + 1)).take (curLen - (i + 1))
        some (removed ++ backing.drop (curLen - 1), curLen - 1)
    else some st

/-- Embedding of the index.Manifests rewrite performed by
OCIDir.ManifestDelete (ocidir package, removal loop): run delStep for
every i below the original length and return the final slice contents, or
none when a slice bound panics. -/
def manifestDeleteManifests (dgst : String) (ms : List IdxDesc) :
    Option (List IdxDesc) :=
  ((List.range ms.length).foldlM (delStep dgst) (ms, ms.length)).map
    fun st => st.1.take st.2

/-- Digest algorithm part of a canonical digest string algo:hex
(digest.Digest.Algorithm() in go-digest truncates at the colon). -/
def dgstAlgo (d : String) : String :=
  String.mk (d.toList.takeWhile fun c => c ≠ ':')

/-- Hex part of a canonical digest string algo:hex
(digest.Digest.Encoded() in go-digest takes everything after the colon). -/
def dgstEncoded (d : String) : String :=
  String.mk ((d.toList.dropWhile fun c => c ≠ ':').drop 1)

/-- Errors of OCIDir.ManifestDelete: the missing-digest error
(types.ErrMissingDigest wrapped) and a Go runtime panic from the slice
bounds (present in the model so that the removal loop is total). -/
inductive DelErr where
  | missingDigest
  | slicePanic
deriving Repr, DecidableEq

/-- Embedding of OCIDir.ManifestDelete: requires a digest on the
reference, rewrites the index, and removes the blob file at
path/blobs/algo/hex.  Returns the rewritten manifest list and the path of
the removed file. -/
def manifestDelete (rPath rDigest : String) (index : List IdxDesc) :
    Except DelErr (List IdxDesc × String) :=
  if rDigest = "" then .error .missingDigest
  else
    match manifestDeleteManifests rDigest index with
    | none => .error .slicePanic
    | some idx =>
      .ok (idx, rPath ++ "/blobs/" ++ dgstAlgo rDigest ++ "/" ++ dgstEncoded rDigest)

/-- Modelled from the spec: indexRefLookup, called by OCIDir.ManifestPut
and ManifestGet, is not part of the provided sources.  Per the spec,
resolution by tag goes through the ref.name annotation of the index
entries; a reference without a tag is resolved by its digest.  Returns the
position of the first matching entry. -/
def indexRefLookup (index : List IdxDesc) (tag dgst : String) : Option Nat :=
  if tag ≠ "" then index.findIdx? fun d => d.refName = some tag
  else index.findIdx? fun d => d.digestStr = dgst

/-- Embedding of the index-mutation part of OCIDir.ManifestPut (ocidir
package): default the tag to latest for a top-level put with neither tag
nor digest, force the digest to the manifest digest when the tag is empty,
build the descriptor (with the ref.name entry only when a tag is set), and
either leave the index alone (child put), replace the entry found by
indexRefLookup, or append a new entry.  The blob write to
blobs/algo/hex happens before any index change and does not touch the
index. -/
def manifestPut (child : Bool) (rTag0 rDigest0 : String)
    (manDigest mt : String) (blen : Int) (index : List IdxDesc) :
    List IdxDesc :=
  let rTag := if ¬child ∧ rDigest0 = "" ∧ rTag0 = "" then "latest" else rTag0
  let rDigest := if rTag = "" then manDigest else rDigest0
  let desc : IdxDesc :=
    { mediaType := mt, size := blen, digestStr := manDigest,
      refName := if rTag ≠ "" then some rTag else none }
  if child then index
  else
    match indexRefLookup index rTag rDigest with
    | some i => index.set i desc
    | none => index ++ [desc]

/-- Invariant of an OCI-dir index.json: at most one entry per tag. -/
def atMostOnePerTag (index : List IdxDesc) : Prop :=
  ∀ t : String, (index.countP fun d => d.refName = some t) ≤ 1

/-- Attempt environment of a host that answers every request with a plain
404: API lookup succeeds, nothing is disabled or canceled, auth and the
transport work, and the response has no special headers. -/
def env404 : AttemptEnv :=
  { okAPI := true, disableHead := false, ctxDoneDuringSleep := false,
    newReqErr := false, hasAuth := true, authUpdateErr := false,
    transportErr := false, status := 404, authHandleOK := false,
    contentLength := none, contentRange := false, retryAfter := none,
    now := 0 }

/-!
## Theorems

Each claim C1-C10 of the specification review is settled below; helper
lemmas shared between claims come first.
-/

/-- C1.  The claim states that the Nth consecutive backoff sleeps
min(delayInit * 2^(N-1), delayMax), the delay computed with the value of
backoffCur before the increment.  Counterexample: with delayInit = 1,
delayMax = 30 and a fresh host (backoffCur = 0), the first backoff sets
backoffUntil to now + 2, not now + min(1 * 2^0, 30) = now + 1, because the
code shifts by backoffCur after the increment. -/
theorem c1_counterexample :
    (backoffSet ⟨1, 30, 3⟩ none 0 ⟨0, 0⟩).1.backoffUntil = 2 ∧
    (backoffSet ⟨1, 30, 3⟩ none 0 ⟨0, 0⟩).1.backoffUntil ≠
      0 + min (1 * 2 ^ (0 : Nat)) 30 := by
  decide

/-- C1 (amended).  The Nth consecutive backoff (N = backoffCur after the
increment) sets backoffUntil to now plus min(delayInit * 2^N, delayMax);
a Retry-After header of K time units overrides the sleep to
min(max(K, current delay), delayMax), the current delay being the already
capped exponential one. -/
theorem c1_backoff_delay (c : BackoffCfg) (ra : Option Nat) (now : Nat)
    (ch : BackoffState) (h : 0 ≤ ch.backoffCur) :
    (backoffSet c ra now ch).1.backoffCur = ch.backoffCur + 1 ∧
    (backoffSet c ra now ch).1.backoffUntil =
      now + (match ra with
        | none => min (c.delayInit * 2 ^ (ch.backoffCur.toNat + 1)) c.delayMax
        | some k =>
          min (max k (min (c.delayInit * 2 ^ (ch.backoffCur.toNat + 1)) c.delayMax))
            c.delayMax) := by
  have hexp : (ch.backoffCur + 1).toNat = ch.backoffCur.toNat + 1 := by omega
  refine ⟨rfl, ?_⟩
  unfold backoffSet
  simp only [hexp, Nat.shiftLeft_eq]
  cases ra with
  | none => simp only []; split_ifs <;> omega
  | some k => simp only []; split_ifs <;> omega

/-- C1 witness: third backoff of a host with backoffCur = 2, delayInit 1,
delayMax 30 and Retry-After 10; the sleep is max(10, min(8, 30)) = 10. -/
theorem c1_witness :
    (0 : Int) ≤ (2 : Int) ∧
    (backoffSet ⟨1, 30, 3⟩ (some 10) 5 ⟨2, 9⟩).1.backoffCur = 3 ∧
    (backoffSet ⟨1, 30, 3⟩ (some 10) 5 ⟨2, 9⟩).1.backoffUntil = 15 := by
  have h := c1_backoff_delay ⟨1, 30, 3⟩ (some 10) 5 ⟨2, 9⟩ (by decide)
  exact ⟨by decide, by simpa using h.1, by simpa using h.2⟩

/-- C10.  backoffCur never goes negative: backoffSet only increments it,
and backoffClear first clamps it to retryLimit, decrements it only when
positive, and zeroes backoffUntil exactly when the decremented counter
reaches zero.  The hypothesis 1 ≤ retryLimit holds for every client:
NewClient starts from DefaultRetryLimit = 3 and WithRetryLimit only
accepts positive values. -/
theorem c10_backoff_counter (c : BackoffCfg) (ra : Option Nat) (now : Nat)
    (ch : BackoffState) (hc : 0 ≤ ch.backoffCur) (hr : 1 ≤ c.retryLimit) :
    (backoffSet c ra now ch).1.backoffCur = ch.backoffCur + 1 ∧
    0 ≤ (backoffClear c ch).backoffCur ∧
    (backoffClear c ch).backoffCur =
      (if 0 < min ch.backoffCur c.retryLimit then min ch.backoffCur c.retryLimit - 1
       else min ch.backoffCur c.retryLimit) ∧
    (backoffClear c ch).backoffUntil =
      (if min ch.backoffCur c.retryLimit = 1 then 0 else ch.backoffUntil) := by
  refine ⟨rfl, ?_, ?_, ?_⟩ <;>
  · unfold backoffClear
    by_cases hgt : ch.backoffCur > c.retryLimit <;>
      by_cases hp : (if ch.backoffCur > c.retryLimit then c.retryLimit else ch.backoffCur) > 0 <;>
        simp only [hgt, hp, if_true, if_false, ite_true, ite_false] <;>
          split_ifs <;> simp_all <;> omega

/-- Helper: an element not strictly below another under sortHostsCmp is
pairwise ordered after it in the propositional sense. -/
theorem hostPairOrdered_of_not_cmp (now : Nat) (up : String) (a b : ClientHost)
    (h : sortHostsCmp now up b a = false) : hostPairOrdered now up a b := by
  unfold sortHostsCmp at h
  unfold hostPairOrdered
  by_cases hf : now < a.backoffUntil ∨ now < b.backoffUntil
  · rw [if_pos hf]
    rw [if_pos (Or.symm hf)] at h
    simpa using h
  · rw [if_neg hf]
    rw [if_neg (fun hor => hf (Or.symm hor))] at h
    by_cases hpr : a.priority = b.priority
    · rw [if_neg (by simp [hpr])]
      rw [if_neg (by simp [hpr])] at h
      simpa using h
    · rw [if_pos hpr]
      rw [if_pos (Ne.symm hpr)] at h
      simp at h
      omega

/-- C2.  The claim orders the whole candidate list by backoffUntil
ascending, stably, as soon as any candidate has backoffUntil in the
future.  Counterexample: upstream u (priority 3), mirrors m1 (priority 1,
backoffUntil 50, already in the past at now = 100), m2 (priority 2, no
backoff) and m3 (backoffUntil 200, in the future).  The claim puts m2
first and m1 third (stable backoffUntil order of the candidate list
[m1, m2, m3, u] is [m2, u, m1, m3]), but the only permutation consistent
with the sortHostsCmp comparator that sort.Slice receives is
[m1, m2, u, m3], because the code compares backoffUntil only when one of
the two compared hosts is in the future and otherwise falls back to
priority. -/
theorem c2_counterexample :
    nextCandidates false ["m1", "m2", "m3"]
        (fun n => if n = "m1" then ⟨"m1", 1, 50⟩ else if n = "m2" then ⟨"m2", 2, 0⟩
          else if n = "m3" then ⟨"m3", 0, 200⟩ else ⟨"u", 3, 0⟩) "u" =
      [⟨"m1", 1, 50⟩, ⟨"m2", 2, 0⟩, ⟨"m3", 0, 200⟩, ⟨"u", 3, 0⟩] ∧
    (100 : Nat) < 200 ∧
    specSortHosts 100 "u" [⟨"m1", 1, 50⟩, ⟨"m2", 2, 0⟩, ⟨"m3", 0, 200⟩, ⟨"u", 3, 0⟩] =
      [⟨"m2", 2, 0⟩, ⟨"u", 3, 0⟩, ⟨"m1", 1, 50⟩, ⟨"m3", 0, 200⟩] ∧
    (([⟨"m1", 1, 50⟩, ⟨"m2", 2, 0⟩, ⟨"m3", 0, 200⟩, ⟨"u", 3, 0⟩] : List ClientHost).permutations'.filter
        (goSortedHosts 100 "u")) =
      [[⟨"m1", 1, 50⟩, ⟨"m2", 2, 0⟩, ⟨"u", 3, 0⟩, ⟨"m3", 0, 200⟩]] := by
  refine ⟨by decide, by decide, by decide, by decide⟩

/-- C2 (amended).  The candidate list is the mirrors of the target host
(omitted when NoMirrors is set) plus the target itself, and the list is
ordered - not necessarily stably, sort.Slice is unstable - consistently
with a pairwise comparator: a pair is compared by backoffUntil when either
of the two hosts has backoffUntil in the future, otherwise by priority
ascending, otherwise the upstream host goes last.  Stated as: membership
in the candidate list, and every output of the sort (any list sorted with
respect to sortHostsCmp) is pairwise ordered by that rule. -/
theorem c2_mirror_order (now : Nat) (up : String) (noM : Bool)
    (mirrors : List String) (lookup : String → ClientHost) (reqHost : String)
    (x : ClientHost) (l' : List ClientHost) :
    (x ∈ nextCandidates noM mirrors lookup reqHost ↔
      x = lookup reqHost ∨ (noM = false ∧ ∃ m ∈ mirrors, x = lookup m)) ∧
    (goSortedHosts now up l' = true → l'.Pairwise (hostPairOrdered now up)) := by
  constructor
  · unfold nextCandidates
    cases noM <;> (simp [List.mem_map, eq_comm]; try aesop)
  · intro hs
    induction l' with
    | nil => exact List.Pairwise.nil
    | cons a l ih =>
      unfold goSortedHosts at hs
      rw [Bool.and_eq_true, List.all_eq_true] at hs
      refine List.Pairwise.cons (fun b hb => ?_) (ih hs.2)
      have := hs.1 b hb
      simp at this
      exact hostPairOrdered_of_not_cmp now up a b this

/-- C2 witness: the sorted list of the counterexample hosts satisfies the
pairwise ordering rule. -/
theorem c2_witness :
    goSortedHosts 100 "u"
        [⟨"m1", 1, 50⟩, ⟨"m2", 2, 0⟩, ⟨"u", 3, 0⟩, ⟨"m3", 0, 200⟩] = true ∧
    ([⟨"m1", 1, 50⟩, ⟨"m2", 2, 0⟩, ⟨"u", 3, 0⟩, ⟨"m3", 0, 200⟩] :
        List ClientHost).Pairwise (hostPairOrdered 100 "u") :=
  ⟨by decide,
   (c2_mirror_order 100 "u" false [] (fun _ => ⟨"u", 3, 0⟩) "u" ⟨"u", 3, 0⟩
      [⟨"m1", 1, 50⟩, ⟨"m2", 2, 0⟩, ⟨"u", 3, 0⟩, ⟨"m3", 0, 200⟩]).2 (by decide)⟩

/-- C10 witness at a host whose counter 5 exceeds retryLimit 3: the clear
clamps to 3 and decrements to 2, keeping backoffUntil. -/
theorem c10_witness :
    (0 : Int) ≤ (5 : Int) ∧ (1 : Int) ≤ (3 : Int) ∧
    (backoffSet ⟨1, 30, 3⟩ none 0 ⟨5, 7⟩).1.backoffCur = 5 + 1 ∧
    0 ≤ (backoffClear ⟨1, 30, 3⟩ ⟨5, 7⟩).backoffCur ∧
    (backoffClear ⟨1, 30, 3⟩ ⟨5, 7⟩).backoffCur = 2 ∧
    (backoffClear ⟨1, 30, 3⟩ ⟨5, 7⟩).backoffUntil = 7 := by
  have h := c10_backoff_counter ⟨1, 30, 3⟩ none 0 ⟨5, 7⟩ (by decide) (by decide)
  exact ⟨by decide, by decide, h.1, h.2.1, by simpa using h.2.2.1, by simpa using h.2.2.2⟩

section TagFilterLemmas

variable (m : String → String → Bool)

/-- Helper: the elementwise allow fold never changes a non-empty slot. -/
theorem allowFold_ne (pats : List String) (t : String) :
    ∀ r : String, r ≠ "" →
      pats.foldl (fun r pat => if r = "" ∧ m ("^" ++ pat ++ "$") t then t else r) r = r := by
  induction pats with
  | nil => intro r _; rfl
  | cons p ps ih =>
    intro r hr
    rw [List.foldl_cons, if_neg (by simp [hr]), ih r hr]

/-- Helper: the elementwise allow fold from an empty slot fills it with t
exactly when some anchored allow pattern matches t. -/
theorem allowFold_elem (pats : List String) (t : String) :
    pats.foldl (fun r pat => if r = "" ∧ m ("^" ++ pat ++ "$") t then t else r) "" =
      (if pats.any (fun p => m ("^" ++ p ++ "$") t) then t else "") := by
  induction pats with
  | nil => simp
  | cons p ps ih =>
    rw [List.foldl_cons]
    by_cases hm : m ("^" ++ p ++ "$") t
    · by_cases ht : t = ""
      · subst ht
        simp only [List.any_cons, hm, Bool.true_or, if_true]
        simpa using ih
      · rw [if_pos (by simp [hm]), allowFold_ne m ps t t ht]
        simp [hm]
    · rw [if_neg (by simp [hm]), ih]
      simp [hm]

/-- Helper: the elementwise deny fold blanks a slot exactly when it is
non-empty and some anchored deny pattern matches it. -/
theorem denyFold_elem (pats : List String) :
    ∀ r : String,
      pats.foldl (fun r pat => if r ≠ "" ∧ m ("^" ++ pat ++ "$") r then "" else r) r =
        (if r ≠ "" ∧ pats.any (fun p => m ("^" ++ p ++ "$") r) then "" else r) := by
  induction pats with
  | nil => intro r; simp
  | cons p ps ih =>
    intro r
    rw [List.foldl_cons]
    by_cases hr : r = ""
    · subst hr
      rw [if_neg (by simp)]
      rw [ih ""]
      simp
    · by_cases hm : m ("^" ++ p ++ "$") r
      · rw [if_pos ⟨hr, hm⟩, ih ""]
        simp [hr, hm]
      · rw [if_neg (by simp [hm]), ih r]
        simp [hr, hm]

/-- Helper: zipWith composed with zipWith over the same left list. -/
theorem zipWith_zipWith_left (g h : String → String → String) :
    ∀ (l1 l2 : List String),
      List.zipWith g l1 (List.zipWith h l1 l2) =
        List.zipWith (fun t r => g t (h t r)) l1 l2 := by
  intro l1
  induction l1 with
  | nil => intro l2; simp
  | cons a l ih => intro l2; cases l2 <;> simp [ih]

/-- Helper: zipWith that ignores the left list is the identity on the
right list when lengths agree. -/
theorem zipWith_right_id :
    ∀ (l1 l2 : List String), l2.length = l1.length →
      List.zipWith (fun _ r => r) l1 l2 = l2 := by
  intro l1
  induction l1 with
  | nil => intro l2 h; simp_all
  | cons a l ih =>
    intro l2 h
    cases l2 with
    | nil => simp at h
    | cons b l2t => simp_all [ih]

/-- Helper: the allow-pass fold over the whole pattern list acts
elementwise. -/
theorem allow_foldl_zip (pats : List String) (inp : List String) :
    ∀ res : List String, res.length = inp.length →
      pats.foldl (fun res pat => allowScan m pat inp res) res =
        List.zipWith
          (fun t r => pats.foldl
            (fun r pat => if r = "" ∧ m ("^" ++ pat ++ "$") t then t else r) r)
          inp res := by
  induction pats with
  | nil => intro res h; simp [zipWith_right_id inp res h]
  | cons p ps ih =>
    intro res h
    rw [List.foldl_cons]
    have hlen : (allowScan m p inp res).length = inp.length := by
      simp [allowScan, h]
    rw [ih (allowScan m p inp res) hlen]
    unfold allowScan
    rw [zipWith_zipWith_left]
    rfl

/-- Helper: the deny-pass fold over the whole pattern list acts
elementwise. -/
theorem deny_foldl_map (pats : List String) :
    ∀ res : List String,
      pats.foldl (fun res pat => denyScan m pat res) res =
        res.map (fun r => pats.foldl
          (fun r pat => if r ≠ "" ∧ m ("^" ++ pat ++ "$") r then "" else r) r) := by
  induction pats with
  | nil => intro res; simp
  | cons p ps ih =>
    intro res
    rw [List.foldl_cons, ih (denyScan m p res)]
    unfold denyScan
    rw [List.map_map]
    rfl

/-- Helper: filtering the image of a keep-or-blank map is filtering by the
keep predicate, provided kept values are the originals and are non-empty. -/
theorem filter_map_keep (f : String → String) (keep : String → Bool)
    (hf : ∀ t, f t = if keep t then t else "") (hk : ∀ t, keep t = true → t ≠ "") :
    ∀ l : List String, (l.map f).filter (fun r => r ≠ "") = l.filter keep := by
  intro l
  induction l with
  | nil => rfl
  | cons a l ih =>
    by_cases ha : keep a = true
    · have hfa : f a = a := by rw [hf a, if_pos ha]
      have hne : a ≠ "" := hk a ha
      rw [List.map_cons, List.filter_cons, List.filter_cons, hfa, if_pos ha,
        if_pos (by simpa using hne), ih]
    · have hfa : f a = "" := by rw [hf a, if_neg ha]
      rw [List.map_cons, List.filter_cons, List.filter_cons, hfa,
        if_neg ha, if_neg (by simp), ih]

/-- Helper: zipWith of a function ignoring its second argument against the
image of a constant map is a plain map. -/
theorem zipWith_const_right (A : String → String → String) :
    ∀ inp : List String,
      List.zipWith (fun t r => A t r) inp (inp.map fun _ => "") =
        inp.map (fun t => A t "") := by
  intro inp
  induction inp with
  | nil => rfl
  | cons a l ih =>
    rw [List.map_cons, List.map_cons, List.zipWith_cons_cons, ih]

/-- Helper: a conjunction of negations over a list is the negation of a
disjunction. -/
theorem all_not_any (f : String → Bool) :
    ∀ l : List String, (l.all fun p => !f p) = !(l.any f) := by
  intro l
  induction l with
  | nil => rfl
  | cons a l ih => simp [ih, Bool.not_or]

/-- Characterization of filterTags: it is List.filter by keepTag, hence
keeps exactly the non-empty tags passing allow-then-deny and preserves the
input order. -/
theorem filterTags_eq_filter (allow deny inp : List String) :
    filterTags m allow deny inp = inp.filter (keepTag m allow deny) := by
  unfold filterTags
  dsimp only
  cases allow with
  | nil =>
    rw [if_neg (by simp)]
    rw [deny_foldl_map m deny inp]
    refine filter_map_keep _ (keepTag m [] deny) (fun t => ?_) (fun t hkt => ?_) inp
    · rw [denyFold_elem m deny t]
      by_cases ht : t = ""
      · subst ht; simp [keepTag]
      · by_cases hd : deny.any (fun p => m ("^" ++ p ++ "$") t)
        · simp [keepTag, all_not_any, ht, hd]
        · simp [keepTag, all_not_any, ht, hd]
    · simp [keepTag] at hkt
      exact hkt.1
  | cons a0 as =>
    rw [if_pos (by simp)]
    rw [allow_foldl_zip m (a0 :: as) inp (inp.map fun _ => "") (by simp)]
    rw [zipWith_const_right]
    rw [deny_foldl_map m deny]
    rw [List.map_map]
    refine filter_map_keep _ (keepTag m (a0 :: as) deny) (fun t => ?_) (fun t hkt => ?_) inp
    · show deny.foldl _ ((a0 :: as).foldl _ "") = _
      rw [allowFold_elem m (a0 :: as) t]
      by_cases hal : (a0 :: as).any (fun p => m ("^" ++ p ++ "$") t)
      · rw [if_pos hal, denyFold_elem m deny t]
        by_cases ht : t = ""
        · subst ht; simp [keepTag]
        · by_cases hd : deny.any (fun p => m ("^" ++ p ++ "$") t)
          · simp [keepTag, all_not_any, ht, hd]
          · simp [keepTag, all_not_any, ht, hd, hal]
      · rw [if_neg hal, denyFold_elem m deny ""]
        simp [keepTag, all_not_any, hal]
    · simp [keepTag] at hkt
      exact hkt.1.1

end TagFilterLemmas

/-- C4.  The claim quantifies over every input tag list, but filterTags
always drops an empty-string tag: with empty allow and deny lists (keep
everything) the input [""] comes back empty instead of unchanged. -/
theorem c4_counterexample :
    filterTags (fun _ _ => true) [] [] [""] = [] ∧
    ([] : List String) ≠ [""] := by
  constructor
  · rfl
  · decide

/-- C4 (amended).  A tag is kept iff it is non-empty AND (allow is empty
OR some allow pattern, anchored as ^pattern$, matches it) AND no anchored
deny pattern matches it; allow is applied before deny, the output is the
List.filter of the input by that predicate and hence preserves input
order (it is a sublist of the input). -/
theorem c4_filter_semantics (m : String → String → Bool)
    (allow deny inp : List String) :
    filterTags m allow deny inp = inp.filter (keepTag m allow deny) ∧
    (filterTags m allow deny inp).Sublist inp := by
  refine ⟨filterTags_eq_filter m allow deny inp, ?_⟩
  rw [filterTags_eq_filter m allow deny inp]
  exact List.filter_sublist inp

/-- C7.  The tag filter is idempotent and monotone in deny: filtering a
filtered list again with the same allow and deny lists is the identity,
and appending a deny pattern only shrinks the output (subset). -/
theorem c7_filter_algebra (m : String → String → Bool)
    (allow deny inp : List String) (q : String) :
    filterTags m allow deny (filterTags m allow deny inp) =
      filterTags m allow deny inp ∧
    filterTags m allow (deny ++ [q]) inp ⊆ filterTags m allow deny inp := by
  constructor
  · rw [filterTags_eq_filter, filterTags_eq_filter, List.filter_filter]
    congr 1
    funext t
    rw [Bool.and_self]
  · rw [filterTags_eq_filter, filterTags_eq_filter]
    intro x hx
    rw [List.mem_filter] at hx ⊢
    refine ⟨hx.1, ?_⟩
    have h2 := hx.2
    simp only [keepTag, List.all_append, Bool.and_eq_true, List.all_cons,
      List.all_nil] at h2 ⊢
    tauto

/-- C3.  On a clean EOF at readMax, a non-HEAD request with an expected
digest compares it to the digest computed over all bytes read; a mismatch
marks the reader done and returns the digest-mismatch error without
retrying (resp.Next is not called).  A HEAD request never yields a
digest-mismatch error. -/
theorem c3_digest_verify (hash : List Nat → String) (st : RespState)
    (chunk : List Nat) (nextErr : Bool) :
    (st.done = false → st.hasResp = true → st.method ≠ "HEAD" →
      st.expected ≠ "" →
      st.readMax ≤ st.readCur + chunk.length →
      st.expected ≠ hash (st.digester ++ chunk) →
      clientRespRead hash st chunk (some .eof) nextErr =
        ({ st with
            readCur := st.readCur + chunk.length,
            digester := st.digester ++ chunk,
            done := true },
         some (.digestMismatch st.expected (hash (st.digester ++ chunk))), false)) ∧
    (st.method = "HEAD" → ∀ (lerr : Option LowErr) (ne2 : Bool) (e c2 : String),
      (clientRespRead hash st chunk lerr ne2).2.1 ≠ some (.digestMismatch e c2)) := by
  constructor
  · intro hdone hresp hm hemp hmax hneq
    unfold clientRespRead
    rw [if_neg (by simp [hdone]), if_neg (by simp [hresp])]
    dsimp only
    rw [if_pos (by simp)]
    rw [if_pos (Or.inr (by simpa using hmax))]
    rw [if_pos ⟨by simpa using hm, by simpa using hemp, by simpa using hneq⟩]
  · intro hh lerr ne2 e c2
    cases lerr with
    | none =>
      unfold clientRespRead
      split_ifs <;> simp
    | some le =>
      unfold clientRespRead
      split_ifs <;> dsimp only <;> (try split_ifs) <;> simp_all

/-- C5.  The claim covers every GET whose body hits EOF before readCur
reaches readMax.  Counterexample at readCur = 0 (the body produced EOF
before any byte arrived, with Content-Length 5): Read does invoke
resp.Next (a retry is issued), but because the Range header is only added
when readCur > 0, the new request carries no Range header at all - and a
2xx answer without Content-Range is then accepted, not failed.  The claim
requires Range: bytes=0-5 and a Content-Range check on this retry. -/
theorem c5_counterexample :
    (clientRespRead (fun _ => "y") ⟨false, true, "GET", "", [], 0, 5⟩ []
        (some .eof) false).2.2 = true ∧
    (hostAttempt ⟨true, false, false, false, true, false, false, 200, false, none, false, none, 0⟩
        ⟨"GET", none, false⟩ ⟨false, true, "GET", "", [], 0, 5⟩).sentRange = none ∧
    (hostAttempt ⟨true, false, false, false, true, false, false, 200, false, none, false, none, 0⟩
        ⟨"GET", none, false⟩ ⟨false, true, "GET", "", [], 0, 5⟩).err = none := by
  refine ⟨rfl, rfl, rfl⟩

/-- C5 (amended).  For every GET whose body hits EOF at readCur with
0 < readCur < readMax: Read calls resp.Next while keeping the digester
bytes (a); the reissued request carries Range: bytes=readCur-readMax
provided the caller put no Range header of its own (b); when a request
that sent a Range header receives a 2xx response without a Content-Range
header, the attempt fails with the range-unsupported error and the host is
dropped (c); and no attempt ever resets the digester (d): reading
continues into the existing one.  The resumed attempt may go to a
different mirror; the Range header value is the same for every host. -/
theorem c5_short_read_resume (hash : List Nat → String) (st : RespState)
    (chunk : List Nat) (env : AttemptEnv) (api : ApiReq) :
    (st.done = false → st.hasResp = true → st.method ≠ "HEAD" →
      st.readCur + chunk.length < st.readMax →
      (clientRespRead hash st chunk (some .eof) false).2.2 = true ∧
      (clientRespRead hash st chunk (some .eof) false).1.digester = st.digester ++ chunk) ∧
    (0 < st.readCur → 0 < st.readMax → api.rangeHeader = none →
      env.okAPI = true → ¬(api.method = "HEAD" ∧ env.disableHead = true) →
      env.ctxDoneDuringSleep = false → env.newReqErr = false →
      (hostAttempt env api st).sentRange =
        some ("bytes=" ++ toString st.readCur ++ "-" ++ toString st.readMax)) ∧
    ((hostAttempt env api st).sentRange ≠ none →
      ¬(env.hasAuth = true ∧ env.authUpdateErr = true) → env.transportErr = false →
      200 ≤ env.status → env.status < 300 → env.contentRange = false →
      (hostAttempt env api st).err = some .rangeUnsupported ∧
      (hostAttempt env api st).dropHost = true) ∧
    (hostAttempt env api st).st.digester = st.digester := by
  refine ⟨?_, ?_, ?_, ?_⟩
  · intro hdone hresp hm hlt
    unfold clientRespRead
    rw [if_neg (by simp [hdone]), if_neg (by simp [hresp])]
    dsimp only
    rw [if_pos (by simp)]
    rw [if_neg ?hcond]
    case hcond =>
      push_neg
      refine ⟨by simpa using hm, by simpa using hlt⟩
    exact ⟨rfl, rfl⟩
  · intro hc hmx hrh hok hnh hctx hnr
    unfold hostAttempt
    rw [if_neg (by simp [hok]), if_neg (by simpa using hnh),
      if_neg (by simp [hctx]), if_neg (by simp [hnr])]
    rw [hrh]
    have hP : st.readCur > 0 ∧ st.readMax > 0 := ⟨hc, hmx⟩
    rw [if_pos hP]
    dsimp only
    split_ifs <;> rfl
  · intro hsr hauth htr h2a h2b hcr
    unfold hostAttempt at hsr ⊢
    by_cases hok : env.okAPI
    case neg => rw [if_pos (by simpa using hok)] at hsr; simp at hsr
    rw [if_neg (by simpa using hok)] at hsr ⊢
    by_cases hhd : api.method = "HEAD" ∧ env.disableHead
    case pos => rw [if_pos hhd] at hsr; simp at hsr
    rw [if_neg hhd] at hsr ⊢
    by_cases hctx : env.ctxDoneDuringSleep
    case pos => rw [if_pos (by simpa using hctx)] at hsr; simp at hsr
    rw [if_neg (by simpa using hctx)] at hsr ⊢
    by_cases hnr : env.newReqErr
    case pos => rw [if_pos (by simpa using hnr)] at hsr; simp at hsr
    rw [if_neg (by simpa using hnr)] at hsr ⊢
    by_cases hP : st.readCur > 0 ∧ st.readMax > 0
    · rw [if_pos hP] at hsr ⊢
      cases hrh : api.rangeHeader with
      | some r =>
        (try rw [hrh] at hsr)
        dsimp only at hsr
        simp at hsr
      | none =>
        (try rw [hrh] at hsr)
        dsimp only at hsr ⊢
        rw [if_neg (by simpa using hauth), if_neg (by simp [htr]),
          if_neg (by omega)] at hsr ⊢
        rw [if_pos ⟨by simp, by simp [hcr]⟩]
        exact ⟨rfl, rfl⟩
    · rw [if_neg hP] at hsr ⊢
      dsimp only at hsr ⊢
      rw [if_neg (by simpa using hauth), if_neg (by simp [htr]),
        if_neg (by omega)] at hsr ⊢
      have hne : ¬api.rangeHeader = none := by
        intro h0
        apply hsr
        rw [h0]
        simp
      rw [if_pos ⟨hne, by simp [hcr]⟩]
      exact ⟨rfl, rfl⟩
  · unfold hostAttempt
    by_cases h1 : ¬env.okAPI
    · rw [if_pos h1]
    · rw [if_neg h1]
      by_cases h2 : api.method = "HEAD" ∧ env.disableHead
      · rw [if_pos h2]
      · rw [if_neg h2]
        by_cases h3 : env.ctxDoneDuringSleep
        · rw [if_pos (by simpa using h3)]
        · rw [if_neg (by simpa using h3)]
          by_cases h4 : env.newReqErr
          · rw [if_pos (by simpa using h4)]
          · rw [if_neg (by simpa using h4)]
            by_cases hP : st.readCur > 0 ∧ st.readMax > 0
            · rw [if_pos hP]
              cases api.rangeHeader with
              | some r => rfl
              | none =>
                dsimp only
                split_ifs <;> first | rfl | (cases env.contentLength <;> rfl)
            · rw [if_neg hP]
              dsimp only
              split_ifs <;> first | rfl | (cases env.contentLength <;> rfl)

/-- C3 witness: a GET with expected digest x reads its single byte to EOF
at readMax = 1 and computes digest y: Read reports the mismatch, marks the
reader done, and does not retry. -/
theorem c3_witness :
    clientRespRead (fun _ => "y") ⟨false, true, "GET", "x", [], 0, 1⟩ [7]
        (some .eof) false =
      (⟨true, true, "GET", "x", [7], 1, 1⟩,
       some (.digestMismatch "x" "y"), false) := by
  have h := (c3_digest_verify (fun _ => "y") ⟨false, true, "GET", "x", [], 0, 1⟩
    [7] false).1 rfl rfl (by decide) (by decide) (by simp) (by decide)
  simpa using h

/-- C5 witness: a short read at readCur = 3 of readMax = 10 triggers the
retry, the reissued attempt sends Range: bytes=3-10, and a 206 response
without Content-Range fails with range-unsupported, keeping the digester
untouched. -/
theorem c5_witness :
    (clientRespRead (fun _ => "y") ⟨false, true, "GET", "", [], 3, 10⟩ [2]
        (some .eof) false).2.2 = true ∧
    (clientRespRead (fun _ => "y") ⟨false, true, "GET", "", [], 3, 10⟩ [2]
        (some .eof) false).1.digester = [] ++ [2] ∧
    (hostAttempt ⟨true, false, false, false, true, false, false, 206, false, none, false, none, 0⟩
        ⟨"GET", none, false⟩ ⟨false, true, "GET", "", [], 3, 10⟩).sentRange =
      some ("bytes=" ++ toString (3 : Int) ++ "-" ++ toString (10 : Int)) ∧
    (hostAttempt ⟨true, false, false, false, true, false, false, 206, false, none, false, none, 0⟩
        ⟨"GET", none, false⟩ ⟨false, true, "GET", "", [], 3, 10⟩).err =
      some .rangeUnsupported ∧
    (hostAttempt ⟨true, false, false, false, true, false, false, 206, false, none, false, none, 0⟩
        ⟨"GET", none, false⟩ ⟨false, true, "GET", "", [], 3, 10⟩).dropHost = true ∧
    (hostAttempt ⟨true, false, false, false, true, false, false, 206, false, none, false, none, 0⟩
        ⟨"GET", none, false⟩ ⟨false, true, "GET", "", [], 3, 10⟩).st.digester = [] := by
  obtain ⟨ha, hb, hc, hd⟩ := c5_short_read_resume (fun _ => "y")
    ⟨false, true, "GET", "", [], 3, 10⟩ [2]
    ⟨true, false, false, false, true, false, false, 206, false, none, false, none, 0⟩
    ⟨"GET", none, false⟩
  have ha' := ha rfl rfl (by decide) (by simp)
  have hb' := hb (by decide) (by decide) rfl rfl (by simp) rfl rfl
  have hc' := hc (by rw [hb']; simp) (by simp) rfl (by decide) (by decide) rfl
  exact ⟨ha'.1, ha'.2, hb', hc'.1, hc'.2, hd⟩

/-- Helper: against env404 every attempt fails with the wrapped 404 error
and drops the host. -/
theorem hostAttempt_env404 (api : ApiReq) (st : RespState)
    (hrh : api.rangeHeader = none) :
    hostAttempt env404 api st =
      { err := some (.requestFailed (HTTPError 404)), dropHost := true,
        sentRange := if 0 < st.readCur ∧ 0 < st.readMax then
            some ("bytes=" ++ toString st.readCur ++ "-" ++ toString st.readMax)
          else none,
        st := st } := by
  unfold hostAttempt
  rw [if_neg (by simp [env404]), if_neg (by simp [env404]),
    if_neg (by simp [env404]), if_neg (by simp [env404])]
  by_cases hP : st.readCur > 0 ∧ st.readMax > 0
  · rw [if_pos hP, if_pos hP, hrh]
    dsimp only
    rw [if_neg (by simp [env404]), if_neg (by simp [env404]),
      if_pos (by simp [env404]), if_neg (by simp [env404]),
      if_pos (by simp [env404])]
  · rw [if_neg hP, if_neg hP, hrh]
    dsimp only
    rw [if_neg (by simp [env404]), if_neg (by simp [env404]),
      if_pos (by simp [env404]), if_neg (by simp [env404]),
      if_pos (by simp [env404])]

/-- Helper: when every host answers 404, the loop drops each candidate in
turn and surfaces the wrapped not-found error of the last one. -/
theorem nextLoop_all404 (cfg : BackoffCfg) (api : ApiReq)
    (hrh : api.rangeHeader = none) :
    ∀ (hosts : List String) (f : Nat) (st : RespState)
      (hst : String → BackoffState) (le : Option RErr),
      hosts ≠ [] → hosts.length + 1 ≤ f →
      nextLoop cfg api (fun _ => env404) f hosts 0 le st hst =
        some (.error (.requestFailed .notFound)) := by
  intro hosts
  induction hosts with
  | nil => intro f st hst le hne _; exact absurd rfl hne
  | cons h hs ih =>
    intro f st hst le _ hf
    obtain ⟨k, rfl⟩ : ∃ k, f = k + 1 := ⟨f - 1, by omega⟩
    unfold nextLoop
    rw [if_neg (by simp)]
    simp only [List.length_cons, List.getD]
    rw [if_neg (by simp)]
    rw [hostAttempt_env404 api st hrh]
    dsimp only
    cases hs with
    | nil =>
      obtain ⟨k2, rfl⟩ : ∃ k2, k = k2 + 1 := ⟨k - 1, by simp at hf; omega⟩
      unfold nextLoop
      simp [List.eraseIdx]
      rfl
    | cons h2 hs2 =>
      have := ih k st hst (some (.requestFailed (HTTPError 404)))
        (by simp) (by simp at hf ⊢; omega)
      simpa [List.eraseIdx] using this

/-- C6.  When the candidate host list empties, clientResp.Next returns the
last recorded error, and the all-requests-failed error exactly when no
error was recorded (with a non-empty initial list an error is always
recorded before the last host is dropped, so ErrAllRequestsFailed is the
none fallback only); the per-host error of a 404 response wraps
HTTPError 404 = ErrNotFound, so a run in which every attempt 404s
surfaces the wrapped not-found error. -/
theorem c6_exhausted_error (cfg : BackoffCfg) (api : ApiReq)
    (oracle : Nat → AttemptEnv) (fuel : Nat) (curHost : Nat)
    (lastErr : Option RErr) (st : RespState)
    (hstates : String → BackoffState) :
    (nextLoop cfg api oracle (fuel + 1) [] curHost lastErr st hstates =
      some (.error (lastErr.getD .allRequestsFailed))) ∧
    HTTPError 404 = .notFound ∧
    (api.rangeHeader = none →
      ∀ (hosts : List String) (f : Nat) (st2 : RespState)
        (hst2 : String → BackoffState),
        hosts ≠ [] → hosts.length + 1 ≤ f →
        nextLoop cfg api (fun _ => env404) f hosts 0 none st2 hst2 =
          some (.error (.requestFailed .notFound))) := by
  refine ⟨?_, rfl, ?_⟩
  · unfold nextLoop
    rw [if_pos (by simp)]
    cases lastErr <;> rfl
  · intro hrh hosts f st2 hst2 hne hf
    exact nextLoop_all404 cfg api hrh hosts f st2 hst2 none hne hf

/-- C6 witness: two mirrors both answering 404 are dropped in turn and the
request surfaces the wrapped not-found error. -/
theorem c6_witness :
    (["h1", "h2"] : List String) ≠ [] ∧
    (["h1", "h2"] : List String).length + 1 ≤ 3 ∧
    nextLoop ⟨1, 30, 3⟩ ⟨"GET", none, false⟩ (fun _ => env404) 3 ["h1", "h2"] 0
        none ⟨false, true, "GET", "", [], 0, 0⟩ (fun _ => ⟨0, 0⟩) =
      some (.error (.requestFailed .notFound)) := by
  refine ⟨by simp, by decide, ?_⟩
  exact (c6_exhausted_error ⟨1, 30, 3⟩ ⟨"GET", none, false⟩ (fun _ => env404) 0 0
      none ⟨false, true, "GET", "", [], 0, 0⟩ (fun _ => ⟨0, 0⟩)).2.2 rfl
    ["h1", "h2"] 3 ⟨false, true, "GET", "", [], 0, 0⟩ (fun _ => ⟨0, 0⟩)
    (by simp) (by decide)

/-- C8.  The claim (and the function doc comment, which says the delete
removes all tags pointing to the manifest) requires every index entry
matching the digest to be removed.  The removal loop mutates the slice it
ranges over: with the index [v1 -> sha256:aaa, latest -> sha256:aaa,
other -> sha256:bbb] a delete of sha256:aaa removes only the first entry -
the second matching entry shifts into the slot the saved range slice has
already passed and survives - and with [v1 -> sha256:aaa,
latest -> sha256:aaa] alone the slice expression panics.  The
missing-digest check works as claimed. -/
theorem c8_manifest_delete_eval :
    manifestDelete "repo" "" [⟨"mt", 1, "sha256:aaa", some "v1"⟩] =
      .error .missingDigest ∧
    manifestDelete "repo" "sha256:aaa"
        [⟨"mt", 1, "sha256:aaa", some "v1"⟩, ⟨"mt", 1, "sha256:aaa", some "latest"⟩,
         ⟨"mt", 2, "sha256:bbb", some "other"⟩] =
      .ok ([⟨"mt", 1, "sha256:aaa", some "latest"⟩, ⟨"mt", 2, "sha256:bbb", some "other"⟩],
        "repo/blobs/sha256/aaa") ∧
    manifestDeleteManifests "sha256:aaa"
        [⟨"mt", 1, "sha256:aaa", some "v1"⟩, ⟨"mt", 1, "sha256:aaa", some "latest"⟩] =
      none := by
  refine ⟨rfl, rfl, rfl⟩

/-- Helper: replacing an element by one the predicate rejects does not
increase the count. -/
theorem countP_set_le (p : IdxDesc → Bool) :
    ∀ (l : List IdxDesc) (i : Nat) (a : IdxDesc), p a = false →
      (l.set i a).countP p ≤ l.countP p := by
  intro l
  induction l with
  | nil => intro i a _; simp
  | cons b l ih =>
    intro i a hpa
    cases i with
    | zero =>
      simp [List.set_cons_zero, List.countP_cons, hpa]
    | succ n =>
      simp only [List.set_cons_succ, List.countP_cons]
      have := ih n a hpa
      omega

/-- Helper: replacing an element by one with the same predicate value
keeps the count. -/
theorem countP_set_eq (p : IdxDesc → Bool) :
    ∀ (l : List IdxDesc) (i : Nat) (a : IdxDesc) (hi : i < l.length),
      p a = p (l.get ⟨i, hi⟩) → (l.set i a).countP p = l.countP p := by
  intro l
  induction l with
  | nil => intro i a hi; simp at hi
  | cons b l ih =>
    intro i a hi hp
    cases i with
    | zero =>
      simp only [List.get] at hp
      simp only [List.set_cons_zero, List.countP_cons, hp]
    | succ n =>
      simp only [List.get] at hp
      simp only [List.set_cons_succ, List.countP_cons]
      rw [ih n a (by simpa using hi) hp]

/-- C9.  index.json holds at most one entry per tag and ManifestPut
preserves this: a child put leaves the index unchanged, a top-level put by
tag replaces the entry found by indexRefLookup instead of appending a
second one (the length does not grow when the tag is present), and the
at-most-one-per-tag invariant is preserved by every put. -/
theorem c9_put_index (child : Bool) (rTag0 rDigest0 manDigest mt : String)
    (blen : Int) (index : List IdxDesc) (hinv : atMostOnePerTag index) :
    atMostOnePerTag (manifestPut child rTag0 rDigest0 manDigest mt blen index) ∧
    (child = true → manifestPut child rTag0 rDigest0 manDigest mt blen index = index) ∧
    (child = false → rTag0 ≠ "" →
      (∃ e ∈ index, e.refName = some rTag0) →
      (manifestPut child rTag0 rDigest0 manDigest mt blen index).length =
        index.length) := by
  cases child with
  | true =>
    refine ⟨by simpa [manifestPut] using hinv, fun _ => by simp [manifestPut], ?_⟩
    intro h
    cases h
  | false =>
    have hput : manifestPut false rTag0 rDigest0 manDigest mt blen index =
        (let rTag := if rDigest0 = "" ∧ rTag0 = "" then "latest" else rTag0
         let desc : IdxDesc :=
           ⟨mt, blen, manDigest, if rTag ≠ "" then some rTag else none⟩
         match indexRefLookup index rTag
             (if rTag = "" then manDigest else rDigest0) with
         | some i => index.set i desc
         | none => index ++ [desc]) := by
      unfold manifestPut
      simp only [Bool.false_eq_true, not_false_iff, true_and, if_false]
    have hcore : ∀ T : String,
        atMostOnePerTag
          (match indexRefLookup index T (if T = "" then manDigest else rDigest0) with
           | some i => index.set i ⟨mt, blen, manDigest, if T ≠ "" then some T else none⟩
           | none => index ++ [⟨mt, blen, manDigest, if T ≠ "" then some T else none⟩]) := by
      intro T
      by_cases hT : T = ""
      · subst hT
        have hlook : indexRefLookup index ""
            (if ("" : String) = "" then manDigest else rDigest0) =
            index.findIdx? fun d => d.digestStr = manDigest := by
          simp [indexRefLookup]
        have hdesc : (if ("" : String) ≠ "" then some "" else (none : Option String)) =
            none := by simp
        rw [hlook, hdesc]
        cases hfind : index.findIdx? fun d => d.digestStr = manDigest with
        | some i =>
          intro t
          exact le_trans (countP_set_le _ index i _ (by simp)) (hinv t)
        | none =>
          intro t
          rw [List.countP_append]
          have h0 : List.countP (fun d => decide (d.refName = some t))
              [(⟨mt, blen, manDigest, none⟩ : IdxDesc)] = 0 := by simp
          rw [h0]
          simpa using hinv t
      · have hlook : indexRefLookup index T (if T = "" then manDigest else rDigest0) =
            index.findIdx? fun d => d.refName = some T := by
          simp [indexRefLookup, hT]
        have hdesc : (if T ≠ "" then some T else (none : Option String)) = some T := by
          simp [hT]
        rw [hlook, hdesc]
        cases hfind : index.findIdx? fun d => d.refName = some T with
        | some i =>
          intro t
          by_cases ht : t = T
          · subst ht
            obtain ⟨hi, hp, -⟩ := List.findIdx?_eq_some_iff_getElem.mp hfind
            rw [countP_set_eq _ index i _ hi (by simp [List.get_eq_getElem, hp])]
            exact hinv t
          · refine le_trans (countP_set_le _ index i _ ?_) (hinv t)
            simp only [decide_eq_false_iff_not]
            exact fun h => ht (by simpa using h.symm)
        | none =>
          intro t
          rw [List.countP_append]
          by_cases ht : t = T
          · subst ht
            have hz : List.countP (fun d => decide (d.refName = some t)) index = 0 := by
              rw [List.countP_eq_zero]
              intro d hd
              have := List.findIdx?_eq_none_iff.mp hfind d hd
              simpa using this
            have h1 : List.countP (fun d => decide (d.refName = some t))
                [(⟨mt, blen, manDigest, some t⟩ : IdxDesc)] = 1 := by simp
            omega
          · have h0 : List.countP (fun d => decide (d.refName = some t))
                [(⟨mt, blen, manDigest, some T⟩ : IdxDesc)] = 0 := by
              simp only [List.countP_cons, List.countP_nil]
              have : ((⟨mt, blen, manDigest, some T⟩ : IdxDesc).refName = some t) = False := by
                simp only [eq_iff_iff, iff_false]
                exact fun h => ht (by simpa using h.symm)
              simp [this]
            rw [h0]
            simpa using hinv t
    refine ⟨?_, ?_, ?_⟩
    · rw [hput]
      by_cases hTd : rDigest0 = "" ∧ rTag0 = ""
      · rw [if_pos hTd]
        exact hcore "latest"
      · rw [if_neg hTd]
        exact hcore rTag0
    · intro h
      exact absurd h (by simp)
    · intro _ hrt hex
      rw [hput]
      have hTd : ¬(rDigest0 = "" ∧ rTag0 = "") := fun h => hrt h.2
      rw [if_neg hTd]
      dsimp only
      obtain ⟨e, he, hre⟩ := hex
      have hsome : (index.findIdx? fun d => d.refName = some rTag0).isSome := by
        rw [List.findIdx?_isSome]
        exact List.any_eq_true.mpr ⟨e, he, by simp [hre]⟩
      obtain ⟨i, hi⟩ := Option.isSome_iff_exists.mp hsome
      have hlook : indexRefLookup index rTag0 (if rTag0 = "" then manDigest else rDigest0) =
          index.findIdx? fun d => d.refName = some rTag0 := by
        simp [indexRefLookup, hrt]
      rw [hlook, hi]
      simp [List.length_set]

/-- C9 witness: a put by tag v1 over an index already holding v1 replaces
the entry, keeping the invariant and the length. -/
theorem c9_witness :
    atMostOnePerTag [⟨"mt", 1, "sha256:aaa", some "v1"⟩] ∧
    atMostOnePerTag (manifestPut false "v1" "" "sha256:ccc" "mt2" 9
      [⟨"mt", 1, "sha256:aaa", some "v1"⟩]) ∧
    (manifestPut false "v1" "" "sha256:ccc" "mt2" 9
      [⟨"mt", 1, "sha256:aaa", some "v1"⟩]).length = 1 := by
  have hinv : atMostOnePerTag [(⟨"mt", 1, "sha256:aaa", some "v1"⟩ : IdxDesc)] := by
    intro t
    simp [List.countP_cons]
    split_ifs <;> omega
  have h := c9_put_index false "v1" "" "sha256:ccc" "mt2" 9
    [⟨"mt", 1, "sha256:aaa", some "v1"⟩] hinv
  exact ⟨hinv, h.1,
    by simpa using h.2.2 rfl (by decide) ⟨⟨"mt", 1, "sha256:aaa", some "v1"⟩, by simp, rfl⟩⟩

end Regclient
